import Mathlib

/-!
Verification of the liteproxy reverse proxy (github.com/localrivet/liteproxy)
against its natural-language specification.

The Go sources are shallowly embedded: Go strings become `List Char`
(the routing code treats them as flat byte/char sequences and all the
relevant data is ASCII), Go byte slices become `List Nat`, Go maps become
association lists queried through a lookup function, and Go's `sort.Slice`
is embedded as the pattern-defeating quicksort Go's standard library runs
(`pdqsort`), driven exactly like `sort.Slice` drives it.
-/

namespace LiteProxy

/-- Go strings, as flat character sequences. -/
abbrev GoStr := List Char

/-- Shorthand to build a `GoStr` from a Lean string literal. -/
def gs (s : String) : GoStr := s.data

/-- Go `strings.HasSuffix`. -/
def goHasSuffix (s suf : GoStr) : Bool := suf.isSuffixOf s

/-- Go `strings.LastIndex(s, c)` for a one-character needle:
index of the last occurrence of `c`, or `none` (Go: -1). -/
def lastIndexChar (s : GoStr) (c : Char) : Option Nat :=
  match s.reverse.findIdx? (· == c) with
  | some i => some (s.length - 1 - i)
  | none => none

/-- Go `strings.Index(s, c)` for a one-character needle. -/
def indexChar (s : GoStr) (c : Char) : Option Nat :=
  s.findIdx? (· == c)

/-- Go `strings.TrimPrefix`. -/
def goTrimPre (s pre : GoStr) : GoStr :=
  if pre.isPrefixOf s then s.drop pre.length else s

/-- A routing rule, from `compose.Route` (src/compose/parser.go).
`pathPref` embeds the Go field `PathPrefix` and `stripPref` the Go field
`StripPrefix`; the other fields keep their Go names. -/
structure Route where
  Host : GoStr
  pathPref : GoStr
  ServiceName : GoStr
  ServicePort : Int
  PassHostHeader : Bool
  stripPref : Bool
  RedirectFrom : List GoStr
deriving DecidableEq, Repr, Inhabited

/-- `matchesPathPrefix` from src/router (identical in both router versions):
path-boundary prefix test.  The final arm embeds Go's `path[len(prefix)]`,
an index that is in bounds whenever it is reached. -/
def matchesPathPre (path pre : GoStr) : Bool :=
  if ¬ pre.isPrefixOf path then false
  else if pre == gs "/" || goHasSuffix pre (gs "/") then true
  else if path.length == pre.length then true
  else
    match path.get? pre.length with
    | some c => c == '/'
    | none => false

/-- The port-stripping step shared by `Match`, `Redirect` and
`getPassthroughRoute`: Go `if idx := strings.LastIndex(host, ":"); idx != -1
{ host = host[:idx] }`. -/
def stripPort (host : GoStr) : GoStr :=
  match lastIndexChar host ':' with
  | some i => host.take i
  | none => host

/-- The routing table held by `router.Router`: exact-host routes, wildcard
routes, and the redirect map.  The Go map is embedded as an association
list where an insert prepends (so a lookup sees the latest insert first). -/
structure RouterT where
  routes : List Route
  wildcards : List Route
  redirects : List (GoStr × Route)
deriving DecidableEq, Repr

/-- Go map assignment `m[k] = v` (lookup resolves to the newest binding). -/
def mapPut {β : Type} (m : List (GoStr × β)) (k : GoStr) (v : β) :
    List (GoStr × β) := (k, v) :: m

/-- Go map read `m[k]` (`nil` when absent). -/
def mapGet {β : Type} (m : List (GoStr × β)) (k : GoStr) : Option β :=
  (m.find? (fun kv => kv.1 == k)).map (fun kv => kv.2)

/-- `Router.Match` (wildcard-aware version, src/unnamed/part_002): strip the
port, normalize the empty path, scan exact routes, then synthesize the
wildcard pattern from the first dot and scan wildcard routes. -/
def Match (t : RouterT) (host path : GoStr) : Option Route :=
  let host := stripPort host
  let path := if path = [] then gs "/" else path
  match t.routes.find? (fun r => r.Host == host && matchesPathPre path r.pathPref) with
  | some r => some r
  | none =>
    match indexChar host '.' with
    | some idx =>
      let wildcardHost := '*' :: host.drop idx
      t.wildcards.find? (fun r => r.Host == wildcardHost && matchesPathPre path r.pathPref)
    | none => none

/-- `Router.Redirect`: strip the port, then look the host up in the
redirect map. -/
def Redirect (t : RouterT) (host : GoStr) : Option Route :=
  mapGet t.redirects (stripPort host)

/-! ### Go's `sort.Slice`

`Router.Update` sorts with `sort.Slice`, which Go implements as a
pattern-defeating quicksort (`pdqsort_func` in sort/zsortfunc.go, driven by
`Slice` with `limit = bits.Len(uint(length))`).  The embedding below follows
that implementation; array accesses use a checked swap/read so the
definitions stay total (the real indices are always in bounds). -/

section GoSort

variable {α : Type} [Inhabited α]

/-- Bounds-checked array swap (out-of-range indices leave the array as is;
the sort never produces such indices). -/
def swp (arr : Array α) (i j : Nat) : Array α :=
  if h : i < arr.size ∧ j < arr.size then arr.swap ⟨i, h.1⟩ ⟨j, h.2⟩ else arr

/-- `data.Less(i, j)` of Go's `lessSwap`. -/
def idxLess (lt : α → α → Bool) (arr : Array α) (i j : Nat) : Bool :=
  lt (arr.getD i default) (arr.getD j default)

/-- Inner loop of `insertionSort_func`: sift `arr[j]` left while it is less
than its left neighbour and `j > a`.  All loops in this section take
explicit fuel and are called with fuel strictly above the loop's maximal
iteration count, so the `fuel = 0` base is never taken; fuel (rather than
well-founded recursion) keeps every definition kernel-reducible. -/
def insInner (lt : α → α → Bool) (arr : Array α) (a j : Nat) :
    (fuel : Nat) → Array α
  | 0 => arr
  | fuel + 1 =>
    if a < j ∧ idxLess lt arr j (j - 1) = true then
      insInner lt (swp arr j (j - 1)) a (j - 1) fuel
    else arr

/-- Outer loop of `insertionSort_func` over `i = a+1 .. b-1`. -/
def insLoop (lt : α → α → Bool) (arr : Array α) (a b i : Nat) :
    (fuel : Nat) → Array α
  | 0 => arr
  | fuel + 1 =>
    if i < b then insLoop lt (insInner lt arr a i (i + 1)) a b (i + 1) fuel
    else arr

/-- `insertionSort_func(data, a, b)`. -/
def insertionSortGo (lt : α → α → Bool) (arr : Array α) (a b : Nat) : Array α :=
  insLoop lt arr a b (a + 1) (b + 1)

/-- Loop of `siftDown_func`, recursing on the root. -/
def siftDownLoop (lt : α → α → Bool) (arr : Array α) (root hi first : Nat) :
    (fuel : Nat) → Array α
  | 0 => arr
  | fuel + 1 =>
    let child0 := 2 * root + 1
    if child0 < hi then
      let child :=
        if child0 + 1 < hi ∧ idxLess lt arr (first + child0) (first + child0 + 1) = true
        then child0 + 1 else child0
      if idxLess lt arr (first + root) (first + child) = true then
        siftDownLoop lt (swp arr (first + root) (first + child)) child hi first fuel
      else arr
    else arr

/-- First loop of `heapSort_func` (build the heap), `i` counting down. -/
def heapBuild (lt : α → α → Bool) (arr : Array α) (hi first : Nat) :
    (i : Nat) → Array α
  | 0 => siftDownLoop lt arr 0 hi first (hi + 1)
  | i + 1 => heapBuild lt (siftDownLoop lt arr (i + 1) hi first (hi + 1)) hi first i

/-- Second loop of `heapSort_func` (pop the maximum), `i` counting down. -/
def heapPop (lt : α → α → Bool) (arr : Array α) (first : Nat) :
    (i : Nat) → Array α
  | 0 => arr
  | i + 1 =>
    heapPop lt
      (siftDownLoop lt (swp arr first (first + i + 1)) 0 (i + 1) first (i + 2))
      first i

/-- `heapSort_func(data, a, b)`. -/
def heapSortGo (lt : α → α → Bool) (arr : Array α) (a b : Nat) : Array α :=
  let hi := b - a
  if hi = 0 then arr
  else heapPop lt (heapBuild lt arr hi a ((hi - 1) / 2)) a (hi - 1)

/-- Go's `xorshift` pseudo-random step over `uint64`. -/
def xorshiftNext (r : Nat) : Nat :=
  let m := 2 ^ 64
  let r := (Nat.xor r ((r <<< 13) % m)) % m
  let r := (Nat.xor r (r >>> 7)) % m
  let r := (Nat.xor r ((r <<< 17) % m)) % m
  r

/-- Structural helper for `bits.Len` (fuel `n` always suffices). -/
def bitsLenAux : (fuel : Nat) → Nat → Nat
  | 0, _ => 0
  | fuel + 1, n => if n = 0 then 0 else bitsLenAux fuel (n / 2) + 1

/-- Go `bits.Len`: number of bits needed to represent `n`. -/
def bitsLen (n : Nat) : Nat := bitsLenAux n n

/-- `breakPatterns_func`: swap three elements around the would-be pivot with
pseudo-random others (only on ranges of length at least 8; it never
compares elements). -/
def breakPatternsGo (arr : Array α) (a b : Nat) : Array α :=
  let length := b - a
  if length ≥ 8 then
    let modulus := 2 ^ bitsLen length
    let idx := a + length / 4 * 2 - 1
    let r0 := length
    let r1 := xorshiftNext r0
    let r2 := xorshiftNext r1
    let r3 := xorshiftNext r2
    let pick (r : Nat) : Nat :=
      let other := r % modulus
      if other ≥ length then other - length else other
    let arr := swp arr (idx - 1) (a + pick r1)
    let arr := swp arr idx (a + pick r2)
    let arr := swp arr (idx + 1) (a + pick r3)
    arr
  else arr

/-- `order2_func`: order two indices, counting a swap.  Returns
`((lo, hi), swaps)`. -/
def order2Go (lt : α → α → Bool) (arr : Array α) (i j swaps : Nat) :
    (Nat × Nat) × Nat :=
  if idxLess lt arr j i = true then ((j, i), swaps + 1) else ((i, j), swaps)

/-- `median_func`: index of the median of three, counting swaps. -/
def medianGo (lt : α → α → Bool) (arr : Array α) (i j k swaps : Nat) :
    Nat × Nat :=
  let ((i, j), swaps) := order2Go lt arr i j swaps
  let ((j, _k), swaps) := order2Go lt arr j k swaps
  let ((_i, j), swaps) := order2Go lt arr i j swaps
  (j, swaps)

/-- `medianAdjacent_func`: median of `i-1, i, i+1`. -/
def medianAdjacentGo (lt : α → α → Bool) (arr : Array α) (i swaps : Nat) :
    Nat × Nat :=
  medianGo lt arr (i - 1) i (i + 1) swaps

/-- Sorted-order hints of `choosePivot_func`. -/
inductive SortHint where
  | increasing
  | decreasing
  | unknown
deriving DecidableEq, Repr

/-- `choosePivot_func`: median(-of-medians) pivot choice with a hint. -/
def choosePivotGo (lt : α → α → Bool) (arr : Array α) (a b : Nat) :
    Nat × SortHint :=
  let l := b - a
  let i := a + l / 4 * 1
  let j := a + l / 4 * 2
  let k := a + l / 4 * 3
  let (j, swaps) :=
    if l ≥ 8 then
      if l ≥ 50 then
        let (i, swaps) := medianAdjacentGo lt arr i 0
        let (j, swaps) := medianAdjacentGo lt arr j swaps
        let (k, swaps) := medianAdjacentGo lt arr k swaps
        medianGo lt arr i j k swaps
      else
        medianGo lt arr i j k 0
    else (j, 0)
  if swaps = 0 then (j, .increasing)
  else if swaps = 12 then (j, .decreasing)
  else (j, .unknown)

/-- Loop of `reverseRange_func`. -/
def revLoop (arr : Array α) (i j : Nat) : (fuel : Nat) → Array α
  | 0 => arr
  | fuel + 1 => if i < j then revLoop (swp arr i j) (i + 1) (j - 1) fuel else arr

/-- `reverseRange_func`. -/
def reverseRangeGo (arr : Array α) (a b : Nat) : Array α :=
  revLoop arr a (b - 1) b

/-- Left-shift loop of `partialInsertionSort_func` (dead on ranges shorter
than 50, which is all this development evaluates). -/
def pisShiftLeft (lt : α → α → Bool) (arr : Array α) (j : Nat) :
    (fuel : Nat) → Array α
  | 0 => arr
  | fuel + 1 =>
    if 1 ≤ j ∧ idxLess lt arr j (j - 1) = true then
      pisShiftLeft lt (swp arr j (j - 1)) (j - 1) fuel
    else arr

/-- Right-shift loop of `partialInsertionSort_func` (dead on short ranges). -/
def pisShiftRight (lt : α → α → Bool) (arr : Array α) (b j : Nat) :
    (fuel : Nat) → Array α
  | 0 => arr
  | fuel + 1 =>
    if j < b ∧ idxLess lt arr j (j - 1) = true then
      pisShiftRight lt (swp arr j (j - 1)) b (j + 1) fuel
    else arr

/-- Scan of `partialInsertionSort_func`: advance `i` past the sorted run. -/
def pisScan (lt : α → α → Bool) (arr : Array α) (b i : Nat) :
    (fuel : Nat) → Nat
  | 0 => i
  | fuel + 1 =>
    if i < b ∧ ¬ idxLess lt arr i (i - 1) = true then pisScan lt arr b (i + 1) fuel
    else i

/-- `partialInsertionSort_func`: returns `(sorted?, new array)`.  At most 5
out-of-order adjacent pairs are repaired, and only on ranges of length at
least 50. -/
def partialInsertionSortGo (lt : α → α → Bool) (arr : Array α) (a b : Nat) :
    (steps : Nat) → Bool × Array α
  | 0 => (false, arr)
  | steps + 1 =>
    let i := pisScan lt arr b (a + 1) (b + 1)
    if i = b then (true, arr)
    else if b - a < 50 then (false, arr)
    else
      let arr := swp arr i (i - 1)
      let arr := if i - a ≥ 2 then pisShiftLeft lt arr (i - 1) i else arr
      let arr := if b - i ≥ 2 then pisShiftRight lt arr b (i + 1) (b + 1) else arr
      partialInsertionSortGo lt arr a b steps

/-- Inner index scan `for i <= j && data.Less(i, a)` of `partition_func`. -/
def partScanI (lt : α → α → Bool) (arr : Array α) (a j i : Nat) :
    (fuel : Nat) → Nat
  | 0 => i
  | fuel + 1 =>
    if i ≤ j ∧ idxLess lt arr i a = true then partScanI lt arr a j (i + 1) fuel
    else i

/-- Inner index scan `for i <= j && !data.Less(j, a)` of `partition_func`.
Go's `j` is an int that can end one below `i`; every call in the sort has
`i ≥ 1`, so a downward Nat recursion with `fuel = j + 2` runs the loop
exactly as Go does. -/
def partScanJ (lt : α → α → Bool) (arr : Array α) (a i j : Nat) :
    (fuel : Nat) → Nat
  | 0 => j
  | fuel + 1 =>
    if i ≤ j ∧ ¬ idxLess lt arr j a = true then partScanJ lt arr a i (j - 1) fuel
    else j

/-- Main loop of `partition_func` after the first crossing swap. -/
def partLoop (lt : α → α → Bool) (arr : Array α) (a i j : Nat) :
    (fuel : Nat) → Array α × Nat
  | 0 => (arr, j)
  | fuel + 1 =>
    let i := partScanI lt arr a j i (j + 2)
    let j := partScanJ lt arr a i j (j + 2)
    if i > j then (arr, j)
    else partLoop lt (swp arr i j) a (i + 1) (j - 1) fuel

/-- `partition_func(data, a, b, pivot)`: Hoare partition, returning the new
pivot position and whether the range was already partitioned. -/
def partitionGo (lt : α → α → Bool) (arr : Array α) (a b pivot : Nat) :
    Array α × Nat × Bool :=
  let arr := swp arr a pivot
  let i := partScanI lt arr a (b - 1) (a + 1) (b + 1)
  let j := partScanJ lt arr a i (b - 1) (b + 1)
  if i > j then (swp arr j a, j, true)
  else
    let arr := swp arr i j
    let (arr, j) := partLoop lt arr a (i + 1) (j - 1) b
    (swp arr j a, j, false)

/-- `for i <= j && !data.Less(a, i)` of `partitionEqual_func`. -/
def partEqScanI (lt : α → α → Bool) (arr : Array α) (a j i : Nat) :
    (fuel : Nat) → Nat
  | 0 => i
  | fuel + 1 =>
    if i ≤ j ∧ ¬ idxLess lt arr a i = true then partEqScanI lt arr a j (i + 1) fuel
    else i

/-- `for i <= j && data.Less(a, j)` of `partitionEqual_func`; fueled like
`partScanJ`. -/
def partEqScanJ (lt : α → α → Bool) (arr : Array α) (a i j : Nat) :
    (fuel : Nat) → Nat
  | 0 => j
  | fuel + 1 =>
    if i ≤ j ∧ idxLess lt arr a j = true then partEqScanJ lt arr a i (j - 1) fuel
    else j

/-- Loop of `partitionEqual_func`. -/
def partEqLoop (lt : α → α → Bool) (arr : Array α) (a i j : Nat) :
    (fuel : Nat) → Array α × Nat
  | 0 => (arr, i)
  | fuel + 1 =>
    let i := partEqScanI lt arr a j i (j + 2)
    let j := partEqScanJ lt arr a i j (j + 2)
    if i > j then (arr, i)
    else partEqLoop lt (swp arr i j) a (i + 1) (j - 1) fuel

/-- `partitionEqual_func(data, a, b, pivot)`: skips elements equal to the
pivot, returning the first index past them. -/
def partitionEqualGo (lt : α → α → Bool) (arr : Array α) (a b pivot : Nat) :
    Array α × Nat :=
  let arr := swp arr a pivot
  partEqLoop lt arr a (a + 1) (b - 1) b

/-- `pdqsort_func(data, a, b, limit)`.  The Go outer loop and its recursive
call on the shorter half are both encoded as recursion on `fuel`, which the
top-level driver seeds far above the deepest possible nesting, so the
`fuel = 0` branch is never taken on any actual run. -/
def pdqsortGo (lt : α → α → Bool) (arr : Array α)
    (a b limit : Nat) (wasBalanced wasPartitioned : Bool) :
    (fuel : Nat) → Array α
  | 0 => arr
  | fuel + 1 =>
    let length := b - a
    if length ≤ 12 then insertionSortGo lt arr a b
    else if limit = 0 then heapSortGo lt arr a b
    else
      let (arr, limit) :=
        if ¬ wasBalanced then (breakPatternsGo arr a b, limit - 1)
        else (arr, limit)
      let (pivot, hint) := choosePivotGo lt arr a b
      let (arr, pivot, hint) :=
        if hint = SortHint.decreasing then
          (reverseRangeGo arr a b, (b - 1) - (pivot - a), SortHint.increasing)
        else (arr, pivot, hint)
      if wasBalanced ∧ wasPartitioned ∧ hint = SortHint.increasing ∧
          (partialInsertionSortGo lt arr a b 5).1 = true then
        (partialInsertionSortGo lt arr a b 5).2
      else
        let arr :=
          if wasBalanced ∧ wasPartitioned ∧ hint = SortHint.increasing then
            (partialInsertionSortGo lt arr a b 5).2
          else arr
        if 0 < a ∧ ¬ idxLess lt arr (a - 1) pivot = true then
          let (arr, mid) := partitionEqualGo lt arr a b pivot
          pdqsortGo lt arr mid b limit wasBalanced wasPartitioned fuel
        else
          let (arr, mid, alreadyPartitioned) := partitionGo lt arr a b pivot
          let leftLen := mid - a
          let rightLen := b - mid
          let balanceThreshold := length / 8
          let wasBalanced' := decide (min leftLen rightLen ≥ balanceThreshold)
          if leftLen < rightLen then
            let arr := pdqsortGo lt arr a mid limit wasBalanced' alreadyPartitioned fuel
            pdqsortGo lt arr (mid + 1) b limit wasBalanced' alreadyPartitioned fuel
          else
            let arr := pdqsortGo lt arr (mid + 1) b limit wasBalanced' alreadyPartitioned fuel
            pdqsortGo lt arr a mid limit wasBalanced' alreadyPartitioned fuel

/-- `sort.Slice(x, less)`: `pdqsort_func(lessSwap, 0, n, bits.Len(uint(n)))`. -/
def sortSliceGo (lt : α → α → Bool) (l : List α) : List α :=
  let arr := l.toArray
  let n := arr.size
  (pdqsortGo lt arr 0 n (bitsLen n) true true (2 * n + 2)).toList

end GoSort

/-- The route comparison `Router.Update` hands to `sort.Slice`:
`len(routes[i].PathPrefix) > len(routes[j].PathPrefix)`. -/
def routeLess (x y : Route) : Bool := decide (y.pathPref.length < x.pathPref.length)

/-- The Go test `strings.HasPrefix(route.Host, "*.")`. -/
def isWildcardHost (r : Route) : Bool := (gs "*.").isPrefixOf r.Host

/-- The redirect-map construction of `Router.Update`: walk the (already
sorted) exact routes, then the wildcard routes, writing every
`RedirectFrom` entry into the map (later writes shadow earlier ones). -/
def buildRedirects (rs : List Route) : List (GoStr × Route) :=
  rs.foldl (fun m r => r.RedirectFrom.foldl (fun m d => mapPut m d r) m) []

/-- `Router.Update` (wildcard-aware version, src/unnamed/part_002): split the
input into exact and wildcard routes preserving order, sort each by
path-prefix length descending with `sort.Slice`, and rebuild the redirect
map from the sorted sequences (exact first, then wildcards). -/
def Update (input : List Route) : RouterT :=
  let exact := input.filter (fun r => ¬ isWildcardHost r)
  let wilds := input.filter (fun r => isWildcardHost r)
  let exact := sortSliceGo routeLess exact
  let wilds := sortSliceGo routeLess wilds
  { routes := exact
    wildcards := wilds
    redirects := buildRedirects (exact ++ wilds) }

/-! ### Spec-side definitions

The following definitions transcribe the specification's wording (not the
code); the claim theorems compare them with the code embeddings above. -/

/-- ASCII digit test. -/
def isDigit (c : Char) : Bool := decide ('0' ≤ c ∧ c ≤ '9')

/-- The spec's step 1 for `match`: "Strip a trailing `:<digits>` from
`host`".  A trailing `:<digits>` suffix, when it exists, necessarily starts
at the last colon (digits contain no colon). -/
def specStripPort (host : GoStr) : GoStr :=
  match lastIndexChar host ':' with
  | some i =>
    if host.drop (i + 1) ≠ [] ∧ (host.drop (i + 1)).all isDigit then
      host.take i
    else host
  | none => host

/-- The spec's path-boundary prefix test, exactly as worded in claim C2:
`path` begins with `prefix` AND (`prefix == "/"`, or `prefix` ends with
`/`, or `len(path) == len(prefix)`, or the byte `path[len(prefix)]` is
`/`). -/
def specBoundary (path pre : GoStr) : Bool :=
  pre.isPrefixOf path &&
    (pre == gs "/" || goHasSuffix pre (gs "/") ||
      path.length == pre.length || path.get? pre.length == some '/')

/-- The `match` procedure exactly as claim C1 words it: spec-worded port
stripping, empty-path normalization, first exact-route hit, then the
synthesized `"*" + host[idx_of_first_dot:]` over the wildcard routes. -/
def specMatch (t : RouterT) (host path : GoStr) : Option Route :=
  let host := specStripPort host
  let path := if path = [] then gs "/" else path
  match t.routes.find? (fun r => r.Host == host && specBoundary path r.pathPref) with
  | some r => some r
  | none =>
    match indexChar host '.' with
    | some idx =>
      t.wildcards.find? (fun r => r.Host == ('*' :: host.drop idx) && specBoundary path r.pathPref)
    | none => none

/-- Claim C1 as amended: the same procedure, but the port stripping removes
everything from the last `:` on, whether or not the suffix is numeric
(which is what `strings.LastIndex` based stripping does). -/
def amendedMatch (t : RouterT) (host path : GoStr) : Option Route :=
  let host := stripPort host
  let path := if path = [] then gs "/" else path
  match t.routes.find? (fun r => r.Host == host && specBoundary path r.pathPref) with
  | some r => some r
  | none =>
    match indexChar host '.' with
    | some idx =>
      t.wildcards.find? (fun r => r.Host == ('*' :: host.drop idx) && specBoundary path r.pathPref)
    | none => none

/-- Claim C4's reading of the redirect map: last write wins with the writes
ordered by the **input** sequence. -/
def specRedirectsInput (input : List Route) : List (GoStr × Route) :=
  buildRedirects input

/-- The route whose `RedirectFrom` contains `src` that occurs last in `rs`
(first hit in the reversed sequence). -/
def lastFor (rs : List Route) (src : GoStr) : Option Route :=
  rs.reverse.find? (fun r => r.RedirectFrom.contains src)

/-! ### Helper lemmas -/

/-- The code's boundary test agrees pointwise with the spec's one-line
characterization. -/
theorem boundary_eq (path pre : GoStr) :
    matchesPathPre path pre = specBoundary path pre := by
  unfold matchesPathPre specBoundary
  cases h1 : pre.isPrefixOf path <;>
    cases hA : pre == gs "/" <;> cases hB : goHasSuffix pre (gs "/") <;>
    cases hC : path.length == pre.length <;> cases hg : path.get? pre.length <;>
    simp [h1, hA, hB, hC, hg]

/-- `find?` only depends on the predicate pointwise. -/
theorem find?_ext {α : Type} (l : List α) (p q : α → Bool)
    (h : ∀ a, p a = q a) : l.find? p = l.find? q := by
  induction l with
  | nil => rfl
  | cons a t ih => simp only [List.find?, h a, ih]

/-- `find?` over an append scans the left part first. -/
theorem find?_app {α : Type} (l₁ l₂ : List α) (p : α → Bool) :
    (l₁ ++ l₂).find? p =
      match l₁.find? p with
      | some a => some a
      | none => l₂.find? p := by
  induction l₁ with
  | nil => rfl
  | cons a t ih =>
    cases h : p a <;>
      simp only [List.cons_append, List.find?, List.append_eq, h, ih]

/-- Lookup after a single Go map write. -/
theorem mapGet_cons (d : GoStr) (r : Route) (m : List (GoStr × Route))
    (src : GoStr) :
    mapGet ((d, r) :: m) src = if d == src then some r else mapGet m src := by
  cases h : d == src <;> simp only [mapGet, List.find?, h] <;> rfl

/-- Writing every name of `ds` to map to `r`: the lookup afterwards
returns `r` exactly when `src` is among `ds`. -/
theorem mapGet_putAll (ds : List GoStr) (r : Route)
    (m : List (GoStr × Route)) (src : GoStr) :
    mapGet (ds.foldl (fun m d => mapPut m d r) m) src =
      if ds.contains src then some r else mapGet m src := by
  induction ds generalizing m with
  | nil => simp [List.contains]
  | cons d t ih =>
    simp only [List.foldl]
    rw [ih]
    simp only [mapPut, mapGet_cons, List.contains_cons]
    cases ht : t.contains src with
    | true => simp [ht]
    | false =>
      cases hd : src == d with
      | true =>
        have h1 : (d == src) = true := beq_iff_eq.mpr (beq_iff_eq.mp hd).symm
        simp [ht, hd, h1]
      | false =>
        have h1 : (d == src) = false :=
          beq_eq_false_iff_ne.mpr (Ne.symm (beq_eq_false_iff_ne.mp hd))
        simp [ht, hd, h1]

/-- The redirect-map construction realizes "last write wins" over the
sequence of routes it walks. -/
theorem mapGet_buildRedirects (rs : List Route) (src : GoStr) :
    mapGet (buildRedirects rs) src = lastFor rs src := by
  have main : ∀ (rs : List Route) (m : List (GoStr × Route)),
      mapGet (rs.foldl
        (fun m r => r.RedirectFrom.foldl (fun m d => mapPut m d r) m) m) src =
        match lastFor rs src with
        | some x => some x
        | none => mapGet m src := by
    intro rs
    induction rs with
    | nil => intro m; rfl
    | cons r t ih =>
      intro m
      simp only [List.foldl, ih, lastFor, List.reverse_cons, find?_app]
      cases hlast : t.reverse.find? (fun r => r.RedirectFrom.contains src) with
      | some x => rfl
      | none =>
        simp only [mapGet_putAll, List.find?]
        cases hr : r.RedirectFrom.contains src <;> simp
  have h := main rs []
  rw [buildRedirects] at *
  rw [h]
  cases hlast : lastFor rs src <;> simp [mapGet]

/-! ### Concrete route tables used by the counterexamples -/

/-- A single exact route for `example.com` at `/`. -/
def r0 : Route :=
  { Host := gs "example.com", pathPref := gs "/", ServiceName := gs "web",
    ServicePort := 80, PassHostHeader := false, stripPref := false,
    RedirectFrom := [] }

/-- Table holding just `r0`. -/
def T0 : RouterT := { routes := [r0], wildcards := [], redirects := [] }

/-- Helper for building throwaway routes that differ only in path prefix. -/
def mkPathRoute (p : String) : Route :=
  { Host := gs "h", pathPref := gs p, ServiceName := gs "s", ServicePort := 1,
    PassHostHeader := false, stripPref := false, RedirectFrom := [] }

/-- Thirteen exact-host routes: index 1 has a strictly longer path prefix
than the twelve others, which all have equal length.  Large enough that
`sort.Slice` leaves insertion-sort territory (length > 12). -/
def c3input : List Route :=
  [mkPathRoute "/a", mkPathRoute "/LONG!", mkPathRoute "/b", mkPathRoute "/c",
   mkPathRoute "/d", mkPathRoute "/e", mkPathRoute "/f", mkPathRoute "/g",
   mkPathRoute "/h", mkPathRoute "/i", mkPathRoute "/j", mkPathRoute "/k",
   mkPathRoute "/l"]

/-- Route redirecting `www.x.com` to `a.com`, path prefix `/`. -/
def rA : Route :=
  { Host := gs "a.com", pathPref := gs "/", ServiceName := gs "sa",
    ServicePort := 80, PassHostHeader := false, stripPref := false,
    RedirectFrom := [gs "www.x.com"] }

/-- Route redirecting `www.x.com` to `b.com`, path prefix `/api` (longer,
so the table sort moves it in front of `rA`). -/
def rB : Route :=
  { Host := gs "b.com", pathPref := gs "/api", ServiceName := gs "sb",
    ServicePort := 80, PassHostHeader := false, stripPref := false,
    RedirectFrom := [gs "www.x.com"] }

/-! ### Claim theorems: routing table -/

/-- C1 (counterexample).  The claim says `match` strips only a trailing
`:<digits>` from the host.  The code strips from the last `:` onward
whatever follows it: on host `"example.com:x"` (suffix not digits) the code
still finds the `example.com` route while the claimed procedure finds
nothing, so `match` does not proceed exactly as claimed. -/
theorem C1_match_counterexample :
    Match T0 (gs "example.com:x") (gs "/") = some r0 ∧
    specMatch T0 (gs "example.com:x") (gs "/") = none ∧
    Match T0 (gs "example.com:x") (gs "/") ≠
      specMatch T0 (gs "example.com:x") (gs "/") := by
  refine ⟨by decide, by decide, by decide⟩

/-- C1 (amended).  `match(host, path)` proceeds exactly as claimed once the
port stripping is amended to: drop everything from the last `:` of `host`
onward (whether or not the suffix is digits).  All other steps — empty-path
normalization, the in-order scan of the exact routes, the synthesized
`"*" + host[idx_of_first_dot:]` scan of the wildcard routes, and the null
result otherwise — are as claimed. -/
theorem C1_match_amended (t : RouterT) (host path : GoStr) :
    Match t host path = amendedMatch t host path := by
  unfold Match amendedMatch
  simp only [boundary_eq]

/-- C2.  The path-boundary test used by `match` returns true iff `path`
begins with `prefix` and (`prefix = "/"`, or `prefix` ends with `/`, or the
lengths are equal, or the byte of `path` at `len(prefix)` is `/`); in
particular `/api` matches `/api`, `/api/` and `/api/users` but not
`/apiv2`. -/
theorem C2_pathBoundary :
    (∀ path pre : GoStr, matchesPathPre path pre = specBoundary path pre) ∧
    matchesPathPre (gs "/api") (gs "/api") = true ∧
    matchesPathPre (gs "/api/") (gs "/api") = true ∧
    matchesPathPre (gs "/api/users") (gs "/api") = true ∧
    matchesPathPre (gs "/apiv2") (gs "/api") = false :=
  ⟨boundary_eq, by decide, by decide, by decide, by decide⟩

set_option maxRecDepth 40000 in
/-- C3 (code evaluated at the failing input).  `Router.Update` sorts with
Go's `sort.Slice`, which is a pattern-defeating quicksort and **not**
stable.  On `c3input` — thirteen routes, all of equal path-prefix length
except the longer one at index 1 — the built table is ordered by length
descending but the equal-length routes are permuted: `/f` (input index 6)
now precedes `/b` (input index 2).  The spec's "Stable across equal
lengths" requires `sort.SliceStable`; the code's `sort.Slice` is the bug. -/
theorem C3_update_not_stable :
    (Update c3input).routes.map Route.pathPref =
      [gs "/LONG!", gs "/f", gs "/b", gs "/c", gs "/d", gs "/e", gs "/a",
       gs "/g", gs "/h", gs "/i", gs "/j", gs "/k", gs "/l"] ∧
    (c3input.map Route.pathPref).findIdx (· == gs "/b") <
      (c3input.map Route.pathPref).findIdx (· == gs "/f") ∧
    ((Update c3input).routes.map Route.pathPref).findIdx (· == gs "/f") <
      ((Update c3input).routes.map Route.pathPref).findIdx (· == gs "/b") ∧
    (gs "/b").length = (gs "/f").length := by
  refine ⟨by decide, by decide, by decide, by decide⟩

/-- C4 (counterexample).  The claim says a colliding redirect source maps
to the route occurring last in the **input** sequence.  With input
`[rA, rB]` (both owning source `www.x.com`) the claimed map yields `rB`,
but the code builds the map by walking the **sorted** table (`/api` sorts
before `/`), so the last write is `rA` and the built map yields `rA`. -/
theorem C4_redirects_counterexample :
    mapGet (specRedirectsInput [rA, rB]) (gs "www.x.com") = some rB ∧
    mapGet (Update [rA, rB]).redirects (gs "www.x.com") = some rA ∧
    mapGet (Update [rA, rB]).redirects (gs "www.x.com") ≠
      mapGet (specRedirectsInput [rA, rB]) (gs "www.x.com") := by
  refine ⟨by decide, by decide, by decide⟩

/-- C4 (amended).  Last write wins, but the write order is the built
table's order — sorted exact routes followed by sorted wildcard routes —
not the input order: for every input and source, the built map returns the
route containing the source that occurs last in
`(Update input).routes ++ (Update input).wildcards`. -/
theorem C4_redirects_lastWrite (input : List Route) (src : GoStr) :
    mapGet (Update input).redirects src =
      lastFor ((Update input).routes ++ (Update input).wildcards) src := by
  simp only [Update]
  exact mapGet_buildRedirects _ _

/-! ### Reverse-proxy handler (src/proxy/handler.go)

`Handler.ServeHTTP` is embedded as a pure step function over an explicit
handler state (scheme, routing table, proxy cache).  Writing to the HTTP
response becomes a `Response` value; forwarding through the cached
`httputil.ReverseProxy` becomes a `proxied` value that records which cached
proxy configuration (upstream authority and `passHostHeader` flag, the
values `buildProxy` closes over) and which rewritten URL are used. -/

/-- The parts of Go's `url.URL` the handler reads or writes. -/
structure URLm where
  Path : GoStr
  RawPath : GoStr
  RawQuery : GoStr
deriving DecidableEq, Repr

/-- What `buildProxy` captures per cache entry: the target authority
(`"<name>:<port>"`) and the `passHostHeader` flag of the route that caused
the entry to be built. -/
structure ProxyEntry where
  targetHost : GoStr
  passHost : Bool
deriving DecidableEq, Repr

/-- The `proxy.Handler` state: redirect scheme, current router, and the
proxy cache keyed by `"<name>:<port>"`. -/
structure HandlerState where
  scheme : GoStr
  rtr : RouterT
  proxies : List (GoStr × ProxyEntry)
deriving DecidableEq, Repr

/-- `fmt.Sprintf("%s:%d", route.ServiceName, route.ServicePort)`. -/
def proxyKey (r : Route) : GoStr :=
  r.ServiceName ++ (':' :: (toString r.ServicePort).data)

/-- `Handler.getProxy`: return the cached proxy for the key, else build one
from this route's fields and cache it.  (The double-checked locking
collapses to a single lookup in this sequential embedding.) -/
def getProxy (h : HandlerState) (route : Route) : ProxyEntry × HandlerState :=
  let key := proxyKey route
  match mapGet h.proxies key with
  | some p => (p, h)
  | none =>
    let p : ProxyEntry := { targetHost := key, passHost := route.PassHostHeader }
    (p, { h with proxies := mapPut h.proxies key p })

/-- `Handler.UpdateRouter`: swap the router and clear the proxy cache. -/
def updateRouter (h : HandlerState) (t : RouterT) : HandlerState :=
  { h with rtr := t, proxies := [] }

/-- The prefix-stripping block of `Handler.ServeHTTP` (lines 119–125): only
`r.URL.Path` is rewritten, via `strings.TrimPrefix` then an empty-result
default to `/`. -/
def stripForRoute (route : Route) (u : URLm) : URLm :=
  if route.stripPref ∧ route.pathPref ≠ gs "/" then
    let p := goTrimPre u.Path route.pathPref
    { u with Path := if p = [] then gs "/" else p }
  else u

/-- What a request handling run produces. -/
inductive Response where
  | redirect (code : Nat) (location : GoStr)
  | httpError (code : Nat) (body : GoStr)
  | proxied (pe : ProxyEntry) (u : URLm)
deriving DecidableEq, Repr

/-- `Handler.ServeHTTP`: check the redirect map first (301 with
scheme://target-host + path + optional ?query), then match (404 on none),
else fetch/build the cached proxy, strip the prefix, and forward. -/
def serveHTTP (h : HandlerState) (host : GoStr) (u : URLm) :
    Response × HandlerState :=
  match Redirect h.rtr host with
  | some target =>
    let url := h.scheme ++ gs "://" ++ target.Host ++ u.Path ++
      (if u.RawQuery ≠ [] then '?' :: u.RawQuery else [])
    (.redirect 301 url, h)
  | none =>
    match Match h.rtr host u.Path with
    | none => (.httpError 404 (gs "no route found"), h)
    | some route =>
      let (pe, h') := getProxy h route
      (.proxied pe (stripForRoute route u), h')

/-- Claim C6's reading of the strip step: the raw-path variant, when
present, is rewritten the same way as the path. -/
def specStrip (route : Route) (u : URLm) : URLm :=
  if route.stripPref ∧ route.pathPref ≠ gs "/" then
    let p := goTrimPre u.Path route.pathPref
    let rp := goTrimPre u.RawPath route.pathPref
    { Path := if p = [] then gs "/" else p
      RawPath :=
        if u.RawPath ≠ [] then (if rp = [] then gs "/" else rp) else u.RawPath
      RawQuery := u.RawQuery }
  else u

/-- Handler state for the witnesses: https scheme, table built from `rA`,
empty proxy cache. -/
def H1 : HandlerState := { scheme := gs "https", rtr := Update [rA], proxies := [] }

/-- A request URL with a query string. -/
def U1 : URLm := { Path := gs "/p", RawPath := [], RawQuery := gs "q=1" }

/-- A stripping route: `/api` with `strip_prefix = true`. -/
def rStrip : Route :=
  { Host := gs "example.com", pathPref := gs "/api", ServiceName := gs "api",
    ServicePort := 8080, PassHostHeader := false, stripPref := true,
    RedirectFrom := [] }

/-- A URL whose raw-path variant is present. -/
def uRaw : URLm :=
  { Path := gs "/api/users", RawPath := gs "/api/users", RawQuery := [] }

/-- Routes with the same upstream name and port but opposite
`pass_host_header` flags. -/
def A10 : Route :=
  { Host := gs "a10.com", pathPref := gs "/", ServiceName := gs "svc",
    ServicePort := 9000, PassHostHeader := false, stripPref := false,
    RedirectFrom := [] }

/-- Same upstream as `A10`, `pass_host_header = true`. -/
def B10 : Route :=
  { Host := gs "b10.com", pathPref := gs "/", ServiceName := gs "svc",
    ServicePort := 9000, PassHostHeader := true, stripPref := false,
    RedirectFrom := [] }

/-- Handler state with an empty proxy cache for the C10 witness. -/
def HC : HandlerState := { scheme := gs "http", rtr := T0, proxies := [] }

/-! ### Claim theorems: handler -/

/-- C5.  The handler consults the redirect map before `match`: whenever
`redirect(host)` returns a target the response is a 301 whose Location is
`<scheme>://<target_host><path>` plus `?<raw_query>` exactly when the raw
query is non-empty, whatever `match` would say; and when both the redirect
map and `match` come up empty the response is a 404 with body
`no route found`. -/
theorem C5_serveHTTP (h : HandlerState) (host : GoStr) (u : URLm) :
    (∀ target, Redirect h.rtr host = some target →
      serveHTTP h host u =
        (.redirect 301 (h.scheme ++ gs "://" ++ target.Host ++ u.Path ++
          (if u.RawQuery ≠ [] then '?' :: u.RawQuery else [])), h)) ∧
    (Redirect h.rtr host = none → Match h.rtr host u.Path = none →
      serveHTTP h host u = (.httpError 404 (gs "no route found"), h)) := by
  constructor
  · intro target hred
    simp [serveHTTP, hred]
  · intro hred hmatch
    simp [serveHTTP, hred, hmatch]

/-- C5 witness: on the `rA` table, host `www.x.com` with path `/p` and
query `q=1` is 301-redirected to `https://a.com/p?q=1`, and an unknown host
yields the 404. -/
theorem C5_serveHTTP_witness :
    serveHTTP H1 (gs "www.x.com") U1 =
      (.redirect 301 (gs "https://a.com/p?q=1"), H1) ∧
    serveHTTP H1 (gs "unknown.com") U1 =
      (.httpError 404 (gs "no route found"), H1) := by
  constructor
  · have h := (C5_serveHTTP H1 (gs "www.x.com") U1).1 rA (by decide)
    rw [h]
    decide
  · exact (C5_serveHTTP H1 (gs "unknown.com") U1).2 (by decide) (by decide)

/-- C6 (counterexample).  The strip block only rewrites `URL.Path`; the
raw-path variant is left untouched.  On the matched request
`/api/users` with `RawPath` present, the claim's rewrite would give
`RawPath = /users` but the code keeps `/api/users`. -/
theorem C6_strip_counterexample :
    matchesPathPre uRaw.Path rStrip.pathPref = true ∧
    (stripForRoute rStrip uRaw).RawPath = gs "/api/users" ∧
    (specStrip rStrip uRaw).RawPath = gs "/users" ∧
    stripForRoute rStrip uRaw ≠ specStrip rStrip uRaw := by
  refine ⟨by decide, by decide, by decide, by decide⟩

/-- C6 (amended).  For a request whose path the route's prefix matches at a
path boundary: when `strip_prefix` is set and the prefix is not `/`, the
outbound path is the inbound path minus the prefix with an empty result
replaced by `/`; otherwise the path is unchanged.  The raw-path variant and
the query are never touched. -/
theorem C6_strip (route : Route) (u : URLm)
    (hm : matchesPathPre u.Path route.pathPref = true) :
    (stripForRoute route u).Path =
      (if route.stripPref ∧ route.pathPref ≠ gs "/" then
        (if u.Path.drop route.pathPref.length = [] then gs "/"
         else u.Path.drop route.pathPref.length)
       else u.Path) ∧
    (stripForRoute route u).RawPath = u.RawPath ∧
    (stripForRoute route u).RawQuery = u.RawQuery := by
  have hp : route.pathPref.isPrefixOf u.Path = true := by
    revert hm
    unfold matchesPathPre
    cases hp : route.pathPref.isPrefixOf u.Path <;> simp
  have ht : goTrimPre u.Path route.pathPref = u.Path.drop route.pathPref.length := by
    unfold goTrimPre
    simp [hp]
  unfold stripForRoute
  by_cases hc : route.stripPref ∧ route.pathPref ≠ gs "/" <;> simp [hc, ht]

/-- C6 witness: stripping `/api` from `/api/users` forwards `/users` while
`RawPath` keeps its inbound value. -/
theorem C6_strip_witness :
    (stripForRoute rStrip uRaw).Path = gs "/users" ∧
    (stripForRoute rStrip uRaw).RawPath = uRaw.RawPath := by
  have h := C6_strip rStrip uRaw (by decide)
  refine ⟨?_, h.2.1⟩
  rw [h.1]
  decide

/-- C10.  The proxy cache is keyed by `"<name>:<port>"` only.  If `A` and
`B` share upstream name and port and the key is not cached yet, the proxy
built for `A` records `A`'s `pass_host_header`; a later `getProxy` for `B`
returns that same proxy unchanged (so `B`'s own flag is ignored), until
`UpdateRouter` clears the cache, after which `B` gets a proxy built from
its own flag. -/
theorem C10_proxyCacheKey (A B : Route) (h : HandlerState) (t : RouterT)
    (hname : A.ServiceName = B.ServiceName)
    (hport : A.ServicePort = B.ServicePort)
    (hmiss : mapGet h.proxies (proxyKey A) = none) :
    (getProxy h A).1.passHost = A.PassHostHeader ∧
    (getProxy (getProxy h A).2 B).1 = (getProxy h A).1 ∧
    (getProxy (getProxy h A).2 B).2 = (getProxy h A).2 ∧
    (getProxy (updateRouter (getProxy h A).2 t) B).1.passHost =
      B.PassHostHeader := by
  have hkey : proxyKey B = proxyKey A := by
    unfold proxyKey
    rw [hname, hport]
  have h1 : getProxy h A =
      ((⟨proxyKey A, A.PassHostHeader⟩ : ProxyEntry),
        { h with proxies :=
            mapPut h.proxies (proxyKey A) ⟨proxyKey A, A.PassHostHeader⟩ }) := by
    simp only [getProxy, hmiss]
  have h2 : mapGet
      (mapPut h.proxies (proxyKey A) ⟨proxyKey A, A.PassHostHeader⟩)
      (proxyKey B) = some (⟨proxyKey A, A.PassHostHeader⟩ : ProxyEntry) := by
    rw [hkey]
    simp [mapGet, mapPut, List.find?]
  have h3 : getProxy
      { h with proxies :=
          mapPut h.proxies (proxyKey A) ⟨proxyKey A, A.PassHostHeader⟩ } B =
      ((⟨proxyKey A, A.PassHostHeader⟩ : ProxyEntry),
        { h with proxies :=
            mapPut h.proxies (proxyKey A) ⟨proxyKey A, A.PassHostHeader⟩ }) := by
    unfold getProxy
    simp only [h2]
  refine ⟨?_, ?_, ?_, ?_⟩
  · rw [h1]
  · rw [h1, h3]
  · rw [h1, h3]
  · rw [h1]
    simp [updateRouter, getProxy, mapGet, List.find?]

/-- C10 witness: with an empty cache, `A10` (flag false) populates the
entry for `svc:9000`; `B10` (flag true) then reuses it unchanged, and only
after the cache reset does `B10`'s flag take effect. -/
theorem C10_proxyCacheKey_witness :
    (getProxy HC A10).1.passHost = A10.PassHostHeader ∧
    (getProxy (getProxy HC A10).2 B10).1 = (getProxy HC A10).1 ∧
    (getProxy (getProxy HC A10).2 B10).2 = (getProxy HC A10).2 ∧
    (getProxy (updateRouter (getProxy HC A10).2 T0) B10).1.passHost =
      B10.PassHostHeader :=
  C10_proxyCacheKey A10 B10 HC T0 rfl rfl (by decide)

/-! ### WebSocket header normalization (src/proxy/handler.go,
`normalizeWebSocketHeaders`)

An `http.Header` is a Go map from header name to value list; it is embedded
as an association list whose well-formed instances carry each key at most
once (`hSet` removes the key before prepending, as a map write does). -/

/-- Header map. -/
abbrev Header := List (GoStr × List GoStr)

/-- Map read `h[k]` (with presence: `none` = absent). -/
def hGet (h : Header) (k : GoStr) : Option (List GoStr) :=
  (h.find? (fun kv => kv.1 == k)).map (fun kv => kv.2)

/-- Go `delete(h, k)`. -/
def hDel (h : Header) (k : GoStr) : Header :=
  h.filter (fun kv => !(kv.1 == k))

/-- Map write `h[k] = v`. -/
def hSet (h : Header) (k : GoStr) (v : List GoStr) : Header :=
  (k, v) :: hDel h k

/-- Index of the first occurrence of `pat` in `s` (Go `strings.Index` for a
multi-character pattern). -/
def findSub (s pat : GoStr) : Option Nat :=
  if pat.isPrefixOf s then some 0
  else
    match s with
    | [] => none
    | _ :: rest => (findSub rest pat).map (· + 1)

/-- Go `strings.Replace(s, old, new, 1)`: replace the first occurrence. -/
def replaceOnce (s old new : GoStr) : GoStr :=
  match findSub s old with
  | some i => s.take i ++ new ++ s.drop (i + old.length)
  | none => s

/-- `strings.Replace(name, "Websocket", "WebSocket", 1)`. -/
def canonicalWS (name : GoStr) : GoStr :=
  replaceOnce name (gs "Websocket") (gs "WebSocket")

/-- The five names the code walks, in its order. -/
def wsHeaderNames : List GoStr :=
  [gs "Sec-Websocket-Key", gs "Sec-Websocket-Version",
   gs "Sec-Websocket-Protocol", gs "Sec-Websocket-Extensions",
   gs "Sec-Websocket-Accept"]

/-- One iteration of the loop in `normalizeWebSocketHeaders`: if the name
is present, delete it and write its values under the canonical name. -/
def normalizeStep (h : Header) (name : GoStr) : Header :=
  match hGet h name with
  | some values => hSet (hDel h name) (canonicalWS name) values
  | none => h

/-- `normalizeWebSocketHeaders`. -/
def normalizeWebSocketHeaders (h : Header) : Header :=
  wsHeaderNames.foldl normalizeStep h

/-- The canonical forms of the five walked names. -/
def wsCanonNames : List GoStr := wsHeaderNames.map canonicalWS

/-- Reading one map entry. -/
theorem hGet_cons (a : GoStr × List GoStr) (t : Header) (k : GoStr) :
    hGet (a :: t) k = if a.1 == k then some a.2 else hGet t k := by
  cases h1 : (a.1 == k) <;> simp [hGet, List.find?_cons, h1]

/-- Reading after a delete. -/
theorem hGet_hDel (h : Header) (k' k : GoStr) :
    hGet (hDel h k') k = if k' == k then none else hGet h k := by
  induction h with
  | nil => simp [hGet, hDel]
  | cons a t ih =>
    simp only [hDel, List.filter_cons] at *
    cases h1 : (a.1 == k') <;> cases h2 : (a.1 == k) <;> cases h3 : (k' == k) <;>
      simp_all [hGet_cons, beq_iff_eq]

/-- Reading after a write. -/
theorem hGet_hSet (h : Header) (k' k : GoStr) (v : List GoStr) :
    hGet (hSet h k' v) k = if k' == k then some v else hGet h k := by
  unfold hSet
  rw [hGet_cons, hGet_hDel]
  cases h1 : (k' == k) <;> simp [h1]

/-- Reading after one normalization step, as a flat if-chain. -/
theorem hGet_normalizeStep (h : Header) (n k : GoStr) :
    hGet (normalizeStep h n) k =
      if hGet h n = none then hGet h k
      else if canonicalWS n == k then hGet h n
      else if n == k then none
      else hGet h k := by
  unfold normalizeStep
  cases hn : hGet h n with
  | none => simp [hn]
  | some v =>
    simp only [hn, if_neg (by simp : ¬ (some v = none))]
    rw [hGet_hSet, hGet_hDel]

/-- Steps for names that are neither `k` nor canonicalized to `k` leave the
entry at `k` unchanged. -/
theorem hGet_steps_other (names : List GoStr) (h : Header) (k : GoStr)
    (hk : ∀ n ∈ names, (n == k) = false ∧ (canonicalWS n == k) = false) :
    hGet (names.foldl normalizeStep h) k = hGet h k := by
  induction names generalizing h with
  | nil => rfl
  | cons n t ih =>
    simp only [List.foldl]
    rw [ih _ (fun m hm => hk m (List.mem_cons_of_mem _ hm))]
    have hn := hk n (List.mem_cons_self _ _)
    rw [hGet_normalizeStep, hn.1, hn.2]
    simp

/-- Splitting the normalization at one walked name, when the later steps do
not touch the key `k`. -/
theorem hGet_norm_split (pre post : List GoStr) (n : GoStr) (h : Header)
    (k : GoStr) (hsplit : wsHeaderNames = pre ++ n :: post)
    (hpost : ∀ m ∈ post, (m == k) = false ∧ (canonicalWS m == k) = false) :
    hGet (normalizeWebSocketHeaders h) k =
      hGet (normalizeStep (pre.foldl normalizeStep h) n) k := by
  rw [normalizeWebSocketHeaders, hsplit, List.foldl_append, List.foldl_cons,
    hGet_steps_other _ _ _ hpost]

/-- A header map holding both the Go-canonicalized variant
`Sec-Websocket-Key` and the WebSocket-canonical `Sec-WebSocket-Key`. -/
def h8 : Header :=
  [(gs "Sec-Websocket-Key", [gs "a"]), (gs "Sec-WebSocket-Key", [gs "b"])]

/-! ### Claim theorems: WebSocket header normalization -/

/-- C8 (counterexample).  `Sec-WebSocket-Key` is not among the five renamed
keys, so by the claim ("headers with other keys are unchanged") its value
list must survive normalization; but when the variant `Sec-Websocket-Key`
is also present the renaming overwrites it. -/
theorem C8_normalize_counterexample :
    (gs "Sec-WebSocket-Key") ∉ wsHeaderNames ∧
    hGet h8 (gs "Sec-WebSocket-Key") = some [gs "b"] ∧
    hGet (normalizeWebSocketHeaders h8) (gs "Sec-WebSocket-Key") =
      some [gs "a"] ∧
    hGet (normalizeWebSocketHeaders h8) (gs "Sec-WebSocket-Key") ≠
      hGet h8 (gs "Sec-WebSocket-Key") := by
  refine ⟨by decide, by decide, by decide, by decide⟩

/-- C8 (amended).  Normalization renames each of the five
`Sec-Websocket-*` keys to its canonical `Sec-WebSocket-*` form, preserving
the associated value list and removing the old key, **overwriting** any
value already stored under the canonical key; headers with keys other than
the five variants and their five canonical forms are unchanged. -/
theorem C8_normalize (h : Header) :
    (∀ n ∈ wsHeaderNames, hGet (normalizeWebSocketHeaders h) n = none) ∧
    (∀ n ∈ wsHeaderNames,
      hGet (normalizeWebSocketHeaders h) (canonicalWS n) =
        if hGet h n = none then hGet h (canonicalWS n) else hGet h n) ∧
    (∀ k : GoStr, k ∉ wsHeaderNames → k ∉ wsCanonNames →
      hGet (normalizeWebSocketHeaders h) k = hGet h k) := by
  refine ⟨?_, ?_, ?_⟩
  · intro n hn
    have hn' : n = gs "Sec-Websocket-Key" ∨
        n = gs "Sec-Websocket-Version" ∨
        n = gs "Sec-Websocket-Protocol" ∨
        n = gs "Sec-Websocket-Extensions" ∨
        n = gs "Sec-Websocket-Accept" := by
      simpa [wsHeaderNames] using hn
    rcases hn' with h1|h1|h1|h1|h1 <;> subst h1
    · rw [hGet_norm_split ([] : List GoStr) [gs "Sec-Websocket-Version", gs "Sec-Websocket-Protocol", gs "Sec-Websocket-Extensions", gs "Sec-Websocket-Accept"]
          (gs "Sec-Websocket-Key") h (gs "Sec-Websocket-Key") rfl (by decide), hGet_normalizeStep]
      cases hv : hGet (List.foldl normalizeStep h ([] : List GoStr)) (gs "Sec-Websocket-Key") <;>
        simp [hv, (by decide :
          (canonicalWS (gs "Sec-Websocket-Key") == gs "Sec-Websocket-Key") = false)]
    · rw [hGet_norm_split [gs "Sec-Websocket-Key"] [gs "Sec-Websocket-Protocol", gs "Sec-Websocket-Extensions", gs "Sec-Websocket-Accept"]
          (gs "Sec-Websocket-Version") h (gs "Sec-Websocket-Version") rfl (by decide), hGet_normalizeStep]
      cases hv : hGet (List.foldl normalizeStep h [gs "Sec-Websocket-Key"]) (gs "Sec-Websocket-Version") <;>
        simp [hv, (by decide :
          (canonicalWS (gs "Sec-Websocket-Version") == gs "Sec-Websocket-Version") = false)]
    · rw [hGet_norm_split [gs "Sec-Websocket-Key", gs "Sec-Websocket-Version"] [gs "Sec-Websocket-Extensions", gs "Sec-Websocket-Accept"]
          (gs "Sec-Websocket-Protocol") h (gs "Sec-Websocket-Protocol") rfl (by decide), hGet_normalizeStep]
      cases hv : hGet (List.foldl normalizeStep h [gs "Sec-Websocket-Key", gs "Sec-Websocket-Version"]) (gs "Sec-Websocket-Protocol") <;>
        simp [hv, (by decide :
          (canonicalWS (gs "Sec-Websocket-Protocol") == gs "Sec-Websocket-Protocol") = false)]
    · rw [hGet_norm_split [gs "Sec-Websocket-Key", gs "Sec-Websocket-Version", gs "Sec-Websocket-Protocol"] [gs "Sec-Websocket-Accept"]
          (gs "Sec-Websocket-Extensions") h (gs "Sec-Websocket-Extensions") rfl (by decide), hGet_normalizeStep]
      cases hv : hGet (List.foldl normalizeStep h [gs "Sec-Websocket-Key", gs "Sec-Websocket-Version", gs "Sec-Websocket-Protocol"]) (gs "Sec-Websocket-Extensions") <;>
        simp [hv, (by decide :
          (canonicalWS (gs "Sec-Websocket-Extensions") == gs "Sec-Websocket-Extensions") = false)]
    · rw [hGet_norm_split [gs "Sec-Websocket-Key", gs "Sec-Websocket-Version", gs "Sec-Websocket-Protocol", gs "Sec-Websocket-Extensions"] ([] : List GoStr)
          (gs "Sec-Websocket-Accept") h (gs "Sec-Websocket-Accept") rfl (by decide), hGet_normalizeStep]
      cases hv : hGet (List.foldl normalizeStep h [gs "Sec-Websocket-Key", gs "Sec-Websocket-Version", gs "Sec-Websocket-Protocol", gs "Sec-Websocket-Extensions"]) (gs "Sec-Websocket-Accept") <;>
        simp [hv, (by decide :
          (canonicalWS (gs "Sec-Websocket-Accept") == gs "Sec-Websocket-Accept") = false)]
  · intro n hn
    have hn' : n = gs "Sec-Websocket-Key" ∨
        n = gs "Sec-Websocket-Version" ∨
        n = gs "Sec-Websocket-Protocol" ∨
        n = gs "Sec-Websocket-Extensions" ∨
        n = gs "Sec-Websocket-Accept" := by
      simpa [wsHeaderNames] using hn
    rcases hn' with h1|h1|h1|h1|h1 <;> subst h1
    · simp only [show canonicalWS (gs "Sec-Websocket-Key") = gs "Sec-WebSocket-Key" from rfl]
      rw [hGet_norm_split ([] : List GoStr) [gs "Sec-Websocket-Version", gs "Sec-Websocket-Protocol", gs "Sec-Websocket-Extensions", gs "Sec-Websocket-Accept"]
          (gs "Sec-Websocket-Key") h (gs "Sec-WebSocket-Key") rfl (by decide), hGet_normalizeStep,
        hGet_steps_other ([] : List GoStr) h (gs "Sec-Websocket-Key") (by decide),
        hGet_steps_other ([] : List GoStr) h (gs "Sec-WebSocket-Key") (by decide)]
      cases hv : hGet h (gs "Sec-Websocket-Key") <;>
        simp [hv, (by decide :
          (canonicalWS (gs "Sec-Websocket-Key") == gs "Sec-WebSocket-Key") = true)]
    · simp only [show canonicalWS (gs "Sec-Websocket-Version") = gs "Sec-WebSocket-Version" from rfl]
      rw [hGet_norm_split [gs "Sec-Websocket-Key"] [gs "Sec-Websocket-Protocol", gs "Sec-Websocket-Extensions", gs "Sec-Websocket-Accept"]
          (gs "Sec-Websocket-Version") h (gs "Sec-WebSocket-Version") rfl (by decide), hGet_normalizeStep,
        hGet_steps_other [gs "Sec-Websocket-Key"] h (gs "Sec-Websocket-Version") (by decide),
        hGet_steps_other [gs "Sec-Websocket-Key"] h (gs "Sec-WebSocket-Version") (by decide)]
      cases hv : hGet h (gs "Sec-Websocket-Version") <;>
        simp [hv, (by decide :
          (canonicalWS (gs "Sec-Websocket-Version") == gs "Sec-WebSocket-Version") = true)]
    · simp only [show canonicalWS (gs "Sec-Websocket-Protocol") = gs "Sec-WebSocket-Protocol" from rfl]
      rw [hGet_norm_split [gs "Sec-Websocket-Key", gs "Sec-Websocket-Version"] [gs "Sec-Websocket-Extensions", gs "Sec-Websocket-Accept"]
          (gs "Sec-Websocket-Protocol") h (gs "Sec-WebSocket-Protocol") rfl (by decide), hGet_normalizeStep,
        hGet_steps_other [gs "Sec-Websocket-Key", gs "Sec-Websocket-Version"] h (gs "Sec-Websocket-Protocol") (by decide),
        hGet_steps_other [gs "Sec-Websocket-Key", gs "Sec-Websocket-Version"] h (gs "Sec-WebSocket-Protocol") (by decide)]
      cases hv : hGet h (gs "Sec-Websocket-Protocol") <;>
        simp [hv, (by decide :
          (canonicalWS (gs "Sec-Websocket-Protocol") == gs "Sec-WebSocket-Protocol") = true)]
    · simp only [show canonicalWS (gs "Sec-Websocket-Extensions") = gs "Sec-WebSocket-Extensions" from rfl]
      rw [hGet_norm_split [gs "Sec-Websocket-Key", gs "Sec-Websocket-Version", gs "Sec-Websocket-Protocol"] [gs "Sec-Websocket-Accept"]
          (gs "Sec-Websocket-Extensions") h (gs "Sec-WebSocket-Extensions") rfl (by decide), hGet_normalizeStep,
        hGet_steps_other [gs "Sec-Websocket-Key", gs "Sec-Websocket-Version", gs "Sec-Websocket-Protocol"] h (gs "Sec-Websocket-Extensions") (by decide),
        hGet_steps_other [gs "Sec-Websocket-Key", gs "Sec-Websocket-Version", gs "Sec-Websocket-Protocol"] h (gs "Sec-WebSocket-Extensions") (by decide)]
      cases hv : hGet h (gs "Sec-Websocket-Extensions") <;>
        simp [hv, (by decide :
          (canonicalWS (gs "Sec-Websocket-Extensions") == gs "Sec-WebSocket-Extensions") = true)]
    · simp only [show canonicalWS (gs "Sec-Websocket-Accept") = gs "Sec-WebSocket-Accept" from rfl]
      rw [hGet_norm_split [gs "Sec-Websocket-Key", gs "Sec-Websocket-Version", gs "Sec-Websocket-Protocol", gs "Sec-Websocket-Extensions"] ([] : List GoStr)
          (gs "Sec-Websocket-Accept") h (gs "Sec-WebSocket-Accept") rfl (by decide), hGet_normalizeStep,
        hGet_steps_other [gs "Sec-Websocket-Key", gs "Sec-Websocket-Version", gs "Sec-Websocket-Protocol", gs "Sec-Websocket-Extensions"] h (gs "Sec-Websocket-Accept") (by decide),
        hGet_steps_other [gs "Sec-Websocket-Key", gs "Sec-Websocket-Version", gs "Sec-Websocket-Protocol", gs "Sec-Websocket-Extensions"] h (gs "Sec-WebSocket-Accept") (by decide)]
      cases hv : hGet h (gs "Sec-Websocket-Accept") <;>
        simp [hv, (by decide :
          (canonicalWS (gs "Sec-Websocket-Accept") == gs "Sec-WebSocket-Accept") = true)]
  · intro k hk1 hk2
    rw [normalizeWebSocketHeaders]
    apply hGet_steps_other
    intro m hm
    refine ⟨beq_eq_false_iff_ne.mpr (fun he => hk1 (he ▸ hm)), ?_⟩
    refine beq_eq_false_iff_ne.mpr (fun he => hk2 ?_)
    rw [← he]
    exact List.mem_map_of_mem canonicalWS hm

/-- C8 witness: a concrete header with one variant key and one unrelated
key, run through the amended characterization. -/
theorem C8_normalize_witness :
    hGet (normalizeWebSocketHeaders
      [(gs "Sec-Websocket-Key", [gs "v1"]), (gs "Content-Type", [gs "text/html"])])
      (gs "Sec-Websocket-Key") = none ∧
    hGet (normalizeWebSocketHeaders
      [(gs "Sec-Websocket-Key", [gs "v1"]), (gs "Content-Type", [gs "text/html"])])
      (gs "Sec-WebSocket-Key") = some [gs "v1"] ∧
    hGet (normalizeWebSocketHeaders
      [(gs "Sec-Websocket-Key", [gs "v1"]), (gs "Content-Type", [gs "text/html"])])
      (gs "Content-Type") = some [gs "text/html"] := by
  have hc := C8_normalize
    [(gs "Sec-Websocket-Key", [gs "v1"]), (gs "Content-Type", [gs "text/html"])]
  refine ⟨hc.1 _ (by decide), ?_, ?_⟩
  · have h2 := hc.2.1 (gs "Sec-Websocket-Key") (by decide)
    rw [show canonicalWS (gs "Sec-Websocket-Key") = gs "Sec-WebSocket-Key" from rfl]
      at h2
    rw [h2]
    decide
  · rw [hc.2.2 (gs "Content-Type") (by decide) (by decide)]
    decide

/-! ### Replay connection (src/unnamed/part_001, `replayConn`)

`replayConn` is modelled as a state machine over the remaining buffered
bytes plus the one-shot ownership flag (`pool != nil && poolBuf != nil` in
the Go struct).  `Read` with a non-empty buffer copies `min n (len buf)`
bytes out of the buffer — `n` being the capacity of the caller's slice —
and releases the buffer to the pool exactly when that empties it and the
flag is still set; with an empty buffer it delegates to the wrapped
connection.  `Close` releases under the same guard and closes the wrapped
connection.  Every operation reports the number of pool releases it
performed, so pool accounting is part of the model. -/

/-- Go byte slices. -/
abbrev Bytes := List Nat

/-- `replayConn`'s mutable state. -/
structure RCState where
  buf : Bytes
  pooled : Bool
deriving DecidableEq, Repr

/-- Operations a caller can perform on the connection. -/
inductive ROp where
  | read (n : Nat)
  | close
deriving DecidableEq, Repr

/-- Observable outcome of one operation. -/
inductive ROut where
  | served (bs : Bytes)
  | delegated (n : Nat)
  | closed
deriving DecidableEq, Repr

/-- `replayConn.Read` with a destination slice of capacity `n`. -/
def rcRead (s : RCState) (n : Nat) : ROut × RCState × Nat :=
  if s.buf ≠ [] then
    let served := s.buf.take n
    let rest := s.buf.drop n
    if rest = [] ∧ s.pooled then (.served served, ⟨rest, false⟩, 1)
    else (.served served, ⟨rest, s.pooled⟩, 0)
  else (.delegated n, s, 0)

/-- `replayConn.Close`. -/
def rcClose (s : RCState) : ROut × RCState × Nat :=
  if s.pooled then (.closed, ⟨s.buf, false⟩, 1) else (.closed, s, 0)

/-- One operation. -/
def rcStep (s : RCState) : ROp → ROut × RCState × Nat
  | .read n => rcRead s n
  | .close => rcClose s

/-- A whole workload: final state and total number of pool releases. -/
def rcRun (s : RCState) : List ROp → RCState × Nat
  | [] => (s, 0)
  | op :: ops =>
    let r := rcStep s op
    let r2 := rcRun r.2.1 ops
    (r2.1, r.2.2 + r2.2)

/-- Total read capacity requested by a workload. -/
def sumReads : List ROp → Nat
  | [] => 0
  | .read n :: ops => n + sumReads ops
  | .close :: ops => sumReads ops

/-- Once the flag is down, no workload ever releases again. -/
theorem rcRun_unpooled (ops : List ROp) :
    ∀ buf : Bytes, (rcRun ⟨buf, false⟩ ops).2 = 0 := by
  induction ops with
  | nil => intro buf; rfl
  | cons op ops ih =>
    intro buf
    cases op with
    | read n =>
      by_cases hb : buf ≠ [] <;>
        simp [rcRun, rcStep, rcRead, hb, ih]
    | close =>
      simp [rcRun, rcStep, rcClose, ih]

/-- Exact release count of any workload from any starting state. -/
theorem rcRun_releases (ops : List ROp) :
    ∀ (buf : Bytes) (pooled : Bool),
      (rcRun ⟨buf, pooled⟩ ops).2 =
        if pooled ∧ (ROp.close ∈ ops ∨ (buf ≠ [] ∧ buf.length ≤ sumReads ops))
        then 1 else 0 := by
  induction ops with
  | nil =>
    intro buf pooled
    rw [if_neg]
    · rfl
    · rintro ⟨_, hc | ⟨hb, hl⟩⟩
      · exact absurd hc (List.not_mem_nil _)
      · exact hb (List.eq_nil_of_length_eq_zero (Nat.le_zero.mp hl))
  | cons op ops ih =>
    intro buf pooled
    cases op with
    | close =>
      cases pooled <;>
        simp [rcRun, rcStep, rcClose, rcRun_unpooled, ih, sumReads]
    | read n =>
      by_cases hb : buf = []
      · subst hb
        simp [rcRun, rcStep, rcRead, ih, sumReads]
      · by_cases hd : buf.drop n = []
        · have hlen : buf.length ≤ n := List.drop_eq_nil_iff.mp hd
          cases pooled with
          | false =>
            simp [rcRun, rcStep, rcRead, hb, hd, rcRun_unpooled, ih]
          | true =>
            have h1 : (rcRun ⟨buf, true⟩ (ROp.read n :: ops)).2 =
                1 + (rcRun ⟨buf.drop n, false⟩ ops).2 := by
              simp [rcRun, rcStep, rcRead, hb, hd]
            rw [h1, rcRun_unpooled]
            have : buf ≠ [] ∧ buf.length ≤ sumReads (ROp.read n :: ops) :=
              ⟨hb, by simp [sumReads]; omega⟩
            simp [this]
        · have hlen : n < buf.length := by
            by_contra hcon
            exact hd (List.drop_eq_nil_iff.mpr (by omega))
          have h1 : (rcRun ⟨buf, pooled⟩ (ROp.read n :: ops)).2 =
              (rcRun ⟨buf.drop n, pooled⟩ ops).2 := by
            simp [rcRun, rcStep, rcRead, hb, hd]
          rw [h1, ih]
          have hiff : (pooled ∧ (ROp.close ∈ ops ∨
              (buf.drop n ≠ [] ∧ (buf.drop n).length ≤ sumReads ops))) ↔
              (pooled ∧ (ROp.close ∈ (ROp.read n :: ops) ∨
                (buf ≠ [] ∧ buf.length ≤ sumReads (ROp.read n :: ops)))) := by
            simp only [List.length_drop, sumReads, List.mem_cons]
            constructor
            · rintro ⟨hp, hc | ⟨_, hl⟩⟩
              · exact ⟨hp, Or.inl (Or.inr hc)⟩
              · exact ⟨hp, Or.inr ⟨hb, by omega⟩⟩
            · rintro ⟨hp, (hc | hc) | ⟨_, hl⟩⟩
              · exact absurd hc (by simp)
              · exact ⟨hp, Or.inl hc⟩
              · exact ⟨hp, Or.inr ⟨hd, by omega⟩⟩
          rw [if_congr hiff rfl rfl]

/-! ### Claim theorems: replay connection -/

/-- C9.  Starting from a pooled buffer: a workload performs at most one
release; it performs exactly one iff it closes the connection at some
point or its reads exhaust the buffer (total requested capacity at least
the buffer length, the buffer being non-empty); and every read serves the
remaining buffered bytes (`take n`) while the buffer is non-empty,
delegating to the underlying connection only once it is empty. -/
theorem C9_replay_release_once (buf : Bytes) (ops : List ROp) :
    (rcRun ⟨buf, true⟩ ops).2 ≤ 1 ∧
    ((rcRun ⟨buf, true⟩ ops).2 = 1 ↔
      (ROp.close ∈ ops ∨ (buf ≠ [] ∧ buf.length ≤ sumReads ops))) ∧
    (∀ (s : RCState) (n : Nat),
      (s.buf ≠ [] → (rcStep s (.read n)).1 = .served (s.buf.take n)) ∧
      (s.buf = [] → (rcStep s (.read n)).1 = .delegated n)) := by
  refine ⟨?_, ?_, ?_⟩
  · rw [rcRun_releases]
    split <;> omega
  · rw [rcRun_releases]
    split <;> rename_i hsp
    · exact iff_of_true rfl hsp.2
    · exact iff_of_false (by omega) (fun hcon => hsp ⟨rfl, hcon⟩)
  · intro s n
    constructor
    · intro hbuf
      simp only [rcStep, rcRead, if_pos hbuf]
      split <;> rfl
    · intro hbuf
      simp [rcStep, rcRead, hbuf]

/-- C9 witness: a three-byte buffer, two reads of two bytes (the second
exhausts it) and a close; exactly one release happens, and the concrete
read outcomes follow the buffered-first rule. -/
theorem C9_replay_release_once_witness :
    (rcRun ⟨[1, 2, 3], true⟩ [ROp.read 2, ROp.read 2, ROp.close]).2 = 1 ∧
    (rcStep ⟨[1, 2], true⟩ (.read 5)).1 = .served [1, 2] ∧
    (rcStep ⟨([] : Bytes), true⟩ (.read 5)).1 = .delegated 5 := by
  have h := C9_replay_release_once [1, 2, 3] [ROp.read 2, ROp.read 2, ROp.close]
  refine ⟨h.2.1.mpr (Or.inl (by decide)), ?_, ?_⟩
  · have h2 := (h.2.2 ⟨[1, 2], true⟩ 5).1 (by decide)
    rw [h2]
    decide
  · exact (h.2.2 ⟨([] : Bytes), true⟩ 5).2 rfl

/-! ### SNI extraction (src/unnamed/part_001, `extractSNI`)

`extractSNI` parses a TLS ClientHello out of a raw byte slice.  Bytes are
`Nat`s; every Go indexing expression is translated as a `get?` whose `none`
arm yields the distinguished result `crash`, so "the code never indexes out
of bounds" becomes the provable statement `extractSNI data ≠ crash`.  The
record-length field (bytes 3 and 4) is read into a variable that the Go
code clamps and then never uses again; the embedding keeps the dead
binding. -/

/-- Result of `extractSNI`: the hostname bytes, a non-fatal error carrying
the Go error text, or an out-of-bounds access (never reached). -/
inductive SNIRes where
  | ok (name : Bytes)
  | err (msg : String)
  | crash
deriving DecidableEq, Repr

/-- The Go slice `data[pos : pos+n]`, bounds-checked. -/
def sliceGet (data : Bytes) (pos n : Nat) : Option Bytes :=
  if pos + n ≤ data.length then some ((data.drop pos).take n) else none

/-- The body of the server-name extension (after the `extType == 0 &&
pos+extLen <= end` test): skip the list length, read the first entry's type
and length, and return the name when the type is `host_name` and the bytes
fit; any truncation breaks out to "no SNI". -/
def sniEntry (data : Bytes) (pos stop : Nat) : SNIRes :=
  if pos + 2 > stop then .err "no SNI"
  else
    let pos := pos + 2
    if pos + 3 > stop then .err "no SNI"
    else
      match data.get? pos, data.get? (pos + 1), data.get? (pos + 2) with
      | some nameType, some n1, some n2 =>
        let nameLen := n1 * 256 + n2
        let pos := pos + 3
        if nameType = 0 ∧ pos + nameLen ≤ stop then
          match sliceGet data pos nameLen with
          | some name => .ok name
          | none => .crash
        else .err "no SNI"
      | _, _, _ => .crash

/-- The extension-scanning loop (`for pos+4 <= end`).  Each iteration
advances `pos` by at least 4, so `fuel = stop + 1` never runs out. -/
def extLoop (data : Bytes) (pos stop : Nat) : (fuel : Nat) → SNIRes
  | 0 => .err "no SNI"
  | fuel + 1 =>
    if pos + 4 ≤ stop then
      match data.get? pos, data.get? (pos + 1), data.get? (pos + 2),
          data.get? (pos + 3) with
      | some t1, some t2, some l1, some l2 =>
        let extType := t1 * 256 + t2
        let extLen := l1 * 256 + l2
        let pos := pos + 4
        if extType = 0 ∧ pos + extLen ≤ stop then sniEntry data pos stop
        else extLoop data (pos + extLen) stop fuel
      | _, _, _, _ => .crash
    else .err "no SNI"

/-- The ClientHello walk from position 9 on: version(2), random(32),
session id(1+n), cipher suites(2+n), compression(1+n), then the extensions
vector clamped to the buffer. -/
def parseHello (data : Bytes) : SNIRes :=
  let pos := 9
  if pos + 2 > data.length then .err "truncated"
  else
    let pos := pos + 2
    if pos + 32 > data.length then .err "truncated"
    else
      let pos := pos + 32
      if pos + 1 > data.length then .err "truncated"
      else
        match data.get? pos with
        | none => .crash
        | some sessLen =>
          let pos := pos + 1 + sessLen
          if pos + 2 > data.length then .err "truncated"
          else
            match data.get? pos, data.get? (pos + 1) with
            | some c1, some c2 =>
              let pos := pos + 2 + (c1 * 256 + c2)
              if pos + 1 > data.length then .err "truncated"
              else
                match data.get? pos with
                | none => .crash
                | some compLen =>
                  let pos := pos + 1 + compLen
                  if pos + 2 > data.length then .err "truncated"
                  else
                    match data.get? pos, data.get? (pos + 1) with
                    | some e1, some e2 =>
                      let extLen := e1 * 256 + e2
                      let pos := pos + 2
                      let stop :=
                        if pos + extLen > data.length then data.length
                        else pos + extLen
                      extLoop data pos stop (stop + 1)
                    | _, _ => .crash
            | _, _ => .crash

/-- The handshake-header check at position 5 (`pos >= len(data) ||
data[pos] != 0x01`), then the ClientHello walk. -/
def clientHello (data : Bytes) : SNIRes :=
  match data.get? 5 with
  | none => .err "not ClientHello"
  | some b5 => if b5 ≠ 1 then .err "not ClientHello" else parseHello data

/-- `extractSNI`.  The record-length clamp is the dead `_recordLen`
binding, exactly as in the source (`recordLen` is reassigned and never read
afterwards). -/
def extractSNI (data : Bytes) : SNIRes :=
  if data.length < 5 then .err "too short"
  else
    match data.get? 0 with
    | none => .crash
    | some b0 =>
      if b0 ≠ 22 then .err "not TLS handshake"
      else
        match data.get? 3, data.get? 4 with
        | some b3, some b4 =>
          let _recordLen :=
            if data.length < 5 + (b3 * 256 + b4) then data.length - 5
            else b3 * 256 + b4
          clientHello data
        | _, _ => .crash

/-- A bounds fact turns `get?` into `some`. -/
theorem get?_some_of_lt (data : Bytes) (i : Nat) (h : i < data.length) :
    ∃ v, data.get? i = some v := by
  cases hg : data.get? i with
  | none => exact absurd (List.get?_eq_none.mp hg) (by omega)
  | some v => exact ⟨v, rfl⟩

/-- The SNI-entry reader never indexes out of bounds. -/
theorem sniEntry_ne_crash (data : Bytes) (pos stop : Nat)
    (hs : stop ≤ data.length) : sniEntry data pos stop ≠ .crash := by
  simp only [sniEntry]
  split
  · simp
  rename_i h2
  split
  · simp
  rename_i h3
  obtain ⟨nt, hnt⟩ := get?_some_of_lt data (pos + 2) (by omega)
  obtain ⟨n1, hn1⟩ := get?_some_of_lt data (pos + 2 + 1) (by omega)
  obtain ⟨n2, hn2⟩ := get?_some_of_lt data (pos + 2 + 2) (by omega)
  simp only [hnt, hn1, hn2]
  split
  · rename_i hcond
    unfold sliceGet
    rw [if_pos (by omega)]
    simp
  · simp

/-- The extension loop never indexes out of bounds. -/
theorem extLoop_ne_crash (data : Bytes) (stop : Nat) (hs : stop ≤ data.length) :
    ∀ (fuel pos : Nat), extLoop data pos stop fuel ≠ .crash := by
  intro fuel
  induction fuel with
  | zero => intro pos; simp [extLoop]
  | succ fuel ih =>
    intro pos
    simp only [extLoop]
    split
    · rename_i h4
      obtain ⟨t1, ht1⟩ := get?_some_of_lt data pos (by omega)
      obtain ⟨t2, ht2⟩ := get?_some_of_lt data (pos + 1) (by omega)
      obtain ⟨l1, hl1⟩ := get?_some_of_lt data (pos + 2) (by omega)
      obtain ⟨l2, hl2⟩ := get?_some_of_lt data (pos + 3) (by omega)
      simp only [ht1, ht2, hl1, hl2]
      split
      · exact sniEntry_ne_crash data _ _ hs
      · exact ih _
    · simp

/-- The ClientHello walk never indexes out of bounds. -/
theorem parseHello_ne_crash (data : Bytes) : parseHello data ≠ .crash := by
  simp only [parseHello]
  split
  · simp
  rename_i hv
  split
  · simp
  rename_i hr
  split
  · simp
  rename_i hsess
  obtain ⟨sessLen, hsl⟩ := get?_some_of_lt data (9 + 2 + 32) (by omega)
  simp only [hsl]
  split
  · simp
  rename_i hcs
  obtain ⟨c1, hc1⟩ := get?_some_of_lt data (9 + 2 + 32 + 1 + sessLen) (by omega)
  obtain ⟨c2, hc2⟩ := get?_some_of_lt data (9 + 2 + 32 + 1 + sessLen + 1) (by omega)
  simp only [hc1, hc2]
  split
  · simp
  rename_i hcm
  obtain ⟨compLen, hcl⟩ :=
    get?_some_of_lt data (9 + 2 + 32 + 1 + sessLen + 2 + (c1 * 256 + c2)) (by omega)
  simp only [hcl]
  split
  · simp
  rename_i hex
  obtain ⟨e1, he1⟩ := get?_some_of_lt data
    (9 + 2 + 32 + 1 + sessLen + 2 + (c1 * 256 + c2) + 1 + compLen) (by omega)
  obtain ⟨e2, he2⟩ := get?_some_of_lt data
    (9 + 2 + 32 + 1 + sessLen + 2 + (c1 * 256 + c2) + 1 + compLen + 1) (by omega)
  simp only [he1, he2]
  apply extLoop_ne_crash
  split <;> omega

/-- `extractSNI` never indexes out of bounds. -/
theorem extractSNI_ne_crash (data : Bytes) : extractSNI data ≠ .crash := by
  simp only [extractSNI]
  split
  · simp
  rename_i h5
  obtain ⟨b0, hb0⟩ := get?_some_of_lt data 0 (by omega)
  simp only [hb0]
  split
  · simp
  obtain ⟨b3, hb3⟩ := get?_some_of_lt data 3 (by omega)
  obtain ⟨b4, hb4⟩ := get?_some_of_lt data 4 (by omega)
  simp only [hb3, hb4]
  show clientHello data ≠ .crash
  simp only [clientHello]
  split
  · simp
  split
  · simp
  · exact parseHello_ne_crash data

/-- Rewriting bytes 3 and 4 does not change any other position. -/
theorem get?_set34 (data : Bytes) (x y i : Nat) (h3 : i ≠ 3) (h4 : i ≠ 4) :
    ((data.set 3 x).set 4 y).get? i = data.get? i := by
  rw [List.get?_set_ne _ _ (Ne.symm h4), List.get?_set_ne _ _ (Ne.symm h3)]

/-- Rewriting bytes 3 and 4 does not change any slice starting at 5 or
later. -/
theorem sliceGet_set34 (data : Bytes) (x y pos n : Nat) (hp : 5 ≤ pos) :
    sliceGet ((data.set 3 x).set 4 y) pos n = sliceGet data pos n := by
  unfold sliceGet
  rw [show ((data.set 3 x).set 4 y).length = data.length by simp]
  have hd : ((data.set 3 x).set 4 y).drop pos = data.drop pos := by
    apply List.ext
    intro i
    rw [List.get?_drop, List.get?_drop, get?_set34 data x y (pos + i)
      (by omega) (by omega)]
  rw [hd]

/-- The SNI-entry reader ignores bytes 3 and 4 (it starts at 5 or later). -/
theorem sniEntry_set34 (data : Bytes) (x y pos stop : Nat) (hp : 5 ≤ pos) :
    sniEntry ((data.set 3 x).set 4 y) pos stop = sniEntry data pos stop := by
  simp only [sniEntry]
  rw [get?_set34 data x y (pos + 2) (by omega) (by omega),
    get?_set34 data x y (pos + 2 + 1) (by omega) (by omega),
    get?_set34 data x y (pos + 2 + 2) (by omega) (by omega)]
  cases hnt : data.get? (pos + 2) with
  | none => rfl
  | some nt =>
  cases hn1 : data.get? (pos + 2 + 1) with
  | none => rfl
  | some n1 =>
  cases hn2 : data.get? (pos + 2 + 2) with
  | none => rfl
  | some n2 =>
  simp only []
  rw [sliceGet_set34 data x y (pos + 2 + 3) (n1 * 256 + n2) (by omega)]

/-- The extension loop ignores bytes 3 and 4 (it starts at 5 or later). -/
theorem extLoop_set34 (data : Bytes) (x y stop : Nat) :
    ∀ (fuel pos : Nat), 5 ≤ pos →
      extLoop ((data.set 3 x).set 4 y) pos stop fuel =
        extLoop data pos stop fuel := by
  intro fuel
  induction fuel with
  | zero => intro pos _; rfl
  | succ fuel ih =>
    intro pos hp
    simp only [extLoop]
    rw [get?_set34 data x y pos (by omega) (by omega),
      get?_set34 data x y (pos + 1) (by omega) (by omega),
      get?_set34 data x y (pos + 2) (by omega) (by omega),
      get?_set34 data x y (pos + 3) (by omega) (by omega)]
    cases ht1 : data.get? pos with
    | none => rfl
    | some t1 =>
    cases ht2 : data.get? (pos + 1) with
    | none => rfl
    | some t2 =>
    cases hl1 : data.get? (pos + 2) with
    | none => rfl
    | some l1 =>
    cases hl2 : data.get? (pos + 3) with
    | none => rfl
    | some l2 =>
    simp only []
    rw [sniEntry_set34 data x y (pos + 4) stop (by omega),
      ih (pos + 4 + (l1 * 256 + l2)) (by omega)]

/-- The ClientHello walk reads nothing below position 9, so bytes 3 and 4
are irrelevant to it. -/
theorem parseHello_set34 (data : Bytes) (x y : Nat) :
    parseHello ((data.set 3 x).set 4 y) = parseHello data := by
  simp only [parseHello,
    show ((data.set 3 x).set 4 y).length = data.length by simp]
  rw [get?_set34 data x y (9 + 2 + 32) (by omega) (by omega)]
  cases hsl : data.get? (9 + 2 + 32) with
  | none => rfl
  | some sessLen =>
  simp only []
  rw [get?_set34 data x y (9 + 2 + 32 + 1 + sessLen) (by omega) (by omega),
    get?_set34 data x y (9 + 2 + 32 + 1 + sessLen + 1) (by omega) (by omega)]
  cases hc1 : data.get? (9 + 2 + 32 + 1 + sessLen) with
  | none => rfl
  | some c1 =>
  cases hc2 : data.get? (9 + 2 + 32 + 1 + sessLen + 1) with
  | none => rfl
  | some c2 =>
  simp only []
  rw [get?_set34 data x y (9 + 2 + 32 + 1 + sessLen + 2 + (c1 * 256 + c2))
    (by omega) (by omega)]
  cases hcl : data.get? (9 + 2 + 32 + 1 + sessLen + 2 + (c1 * 256 + c2)) with
  | none => rfl
  | some compLen =>
  simp only []
  rw [get?_set34 data x y
      (9 + 2 + 32 + 1 + sessLen + 2 + (c1 * 256 + c2) + 1 + compLen)
      (by omega) (by omega),
    get?_set34 data x y
      (9 + 2 + 32 + 1 + sessLen + 2 + (c1 * 256 + c2) + 1 + compLen + 1)
      (by omega) (by omega)]
  cases he1 : data.get?
      (9 + 2 + 32 + 1 + sessLen + 2 + (c1 * 256 + c2) + 1 + compLen) with
  | none => rfl
  | some e1 =>
  cases he2 : data.get?
      (9 + 2 + 32 + 1 + sessLen + 2 + (c1 * 256 + c2) + 1 + compLen + 1) with
  | none => rfl
  | some e2 =>
  simp only []
  rw [extLoop_set34 data x y _ _ _ (by omega)]

/-- `extractSNI` ignores the two record-length bytes entirely. -/
theorem extractSNI_set34 (data : Bytes) (x y : Nat) :
    extractSNI ((data.set 3 x).set 4 y) = extractSNI data := by
  simp only [extractSNI,
    show ((data.set 3 x).set 4 y).length = data.length by simp]
  by_cases h5 : data.length < 5
  · rw [if_pos h5, if_pos h5]
  rw [if_neg h5, if_neg h5,
    get?_set34 data x y 0 (by omega) (by omega)]
  cases hb0 : data.get? 0 with
  | none => rfl
  | some b0 =>
  simp only []
  by_cases h22 : b0 ≠ 22
  · rw [if_pos h22, if_pos h22]
  rw [if_neg h22, if_neg h22]
  obtain ⟨b3, hb3⟩ := get?_some_of_lt data 3 (by omega)
  obtain ⟨b4, hb4⟩ := get?_some_of_lt data 4 (by omega)
  have hb3' : ((data.set 3 x).set 4 y).get? 3 = some x := by
    rw [List.get?_set_ne _ _ (by omega), List.get?_set_eq_of_lt _ (by omega)]
  have hb4' : ((data.set 3 x).set 4 y).get? 4 = some y := by
    rw [List.get?_set_eq_of_lt _ (by simp; omega)]
  simp only [hb3, hb4, hb3', hb4']
  show clientHello ((data.set 3 x).set 4 y) = clientHello data
  simp only [clientHello, get?_set34 data x y 5 (by omega) (by omega)]
  cases hb5 : data.get? 5 with
  | none => rfl
  | some b5 =>
  simp only []
  by_cases h1 : b5 ≠ 1
  · rw [if_pos h1, if_pos h1]
  rw [if_neg h1, if_neg h1, parseHello_set34]

/-! ### Claim theorem: SNI extraction -/

/-- C7.  For every byte slice — including a ClientHello truncated at any
length field — `extractSNI` returns a hostname or a non-fatal error and
never takes the out-of-bounds arm (`crash`), every index it reads being
within the buffer; and it does not rely on the TLS record-length field:
rewriting bytes 3 and 4 (the record length) arbitrarily never changes its
result, so when that field exceeds the buffer it simply parses the
available bytes. -/
theorem C7_extractSNI_safe (data : Bytes) (x y : Nat) :
    extractSNI data ≠ .crash ∧
    extractSNI ((data.set 3 x).set 4 y) = extractSNI data :=
  ⟨extractSNI_ne_crash data, extractSNI_set34 data x y⟩

end LiteProxy
